import Mathlib

/-
Verification of the pysnyk manager/pager/transport layer against its
natural-language specification.

The Python sources are shallowly embedded: dictionaries become association
lists, in-place mutation of a dictionary or of the cached tag list is made
explicit by returning the post-call value of the mutated object, the HTTP
server is an explicit function from requests to decoded response payloads,
and unbounded recursion (cursor chains, page-number pagination) is given a
fuel parameter, with `none` standing for a run that does not terminate.
Exceptions become `Except` values; the count of HTTP requests actually
issued is threaded through every operation that talks to the network.

All definitions come first, all theorems after them.
-/

namespace PySnyk

/-- The exception taxonomy of `snyk/errors.py`: `SnykError` is the base
class, `SnykNotFoundError` and `SnykNotImplementedError` are the two
subclasses the managers raise.  The embedding only needs to distinguish
these three. -/
inductive SnykErr where
  | snykError
  | notFound
  | notImplemented
deriving DecidableEq, Repr

/-- A well-formed tag: the key/value dictionaries stored in
`Project._tags` and sent in PATCH bodies. -/
structure Tag where
  key : String
  value : String
deriving DecidableEq, Repr

/-! ### TagManager (`snyk/managers.py`, class `TagManager`)

`TagManager.all` returns `self.instance._tags` - the cached list object
itself, not a copy.  `add` appends to that aliased list (mutating the cache
in place) and then PATCHes the whole list; `delete` builds a *new* filtered
list, PATCHes it, and never writes it back to the cache.  A `TagCall`
records everything observable about one `add`/`delete` call: whether the
PATCH raised, the value of `instance._tags` after the call, and the tag
list sent in the PATCH body. -/

/-- Observable outcome of one `TagManager.add` or `TagManager.delete` call.
`raised` is true when the PATCH issued by `__update_tags` failed (the
client raises `SnykError`); `finalTags` is `instance._tags` after the call;
`patchBody` is the tag list inside the PATCH body. -/
structure TagCall where
  raised : Bool
  finalTags : List Tag
  patchBody : List Tag
deriving DecidableEq, Repr

/-- `TagManager.add(key, value)`: `new_tags = self.all()` aliases
`instance._tags`, so `new_tags.append(tag)` mutates the cache before the
PATCH is issued; the mutation persists whether or not the PATCH succeeds.
`patchOk` is whether the server accepts the PATCH. -/
def tagManagerAdd (patchOk : Bool) (cached : List Tag) (k v : String) : TagCall :=
  let newTags := cached ++ [⟨k, v⟩]
  { raised := !patchOk, finalTags := newTags, patchBody := newTags }

/-- `TagManager.delete(key, value)`: keeps exactly the cached tags whose
key differs from `k` and whose value differs from `v` (the conjunction is
what the list comprehension in the source tests), PATCHes that fresh list,
and leaves the cache untouched. -/
def tagManagerDelete (patchOk : Bool) (cached : List Tag) (k v : String) : TagCall :=
  let filtered := cached.filter (fun t => t.key != k && t.value != v)
  { raised := !patchOk, finalTags := cached, patchBody := filtered }

/-- `TagManager.all()` returns the cached `instance._tags`. -/
def tagManagerAll (cached : List Tag) : List Tag := cached

/-! ### Transport retry (spec section 4.1)

The retrying transport is the `SnykClient` of `snyk/client.py`.  That file
is not under `src/`: only its tests (`snyk/test_client.py`, which exercises
`tries`, `delay`, `backoff` and asserts the exact call counts) and its
callers (`snyk/managers.py`) are.  The transport is therefore modelled from
the spec.  The early `pysnyk/client.py` that is present under `src/` has no
retry at all: every verb raises `SnykError` on the first non-success
response; the spec and the tests describe the retrying client. -/

/-- An HTTP response: status code plus an abstract body. -/
structure HttpResponse where
  status : Nat
  body : String
deriving DecidableEq, Repr

/-- A 2xx or 3xx status, the success range in the spec. -/
def isSuccessStatus (r : HttpResponse) : Bool := 200 ≤ r.status && r.status < 400

/-- A 5xx status, the retryable range in the spec. -/
def isServerError (r : HttpResponse) : Bool := 500 ≤ r.status && r.status < 600

/-- Modelled from the spec: the retrying request path of `snyk/client.py`
(absent from `src/`; only `snyk/test_client.py` and the managers that call
it are present).  Spec 4.1: on a 5xx response, retry up to a configurable
attempt count; after exhausting attempts, fail with a transport error
carrying the last response; a non-2xx/3xx response that is not 5xx fails
immediately without retry.  `serve n` is the response the server gives to
the HTTP call with index `idx = n`; the first component of the result is
the outcome (`Except.error` models the raised transport error, carrying
the last response) and the second is the number of HTTP calls issued.
An attempt count of zero is outside the spec and never exercised. -/
def transportRequest (serve : Nat → HttpResponse) :
    Nat → Nat → Except HttpResponse HttpResponse × Nat
  | 0, _ => (.error ⟨0, ""⟩, 0)
  | a + 1, idx =>
    let r := serve idx
    if isSuccessStatus r then (.ok r, 1)
    else if isServerError r then
      if a = 0 then (.error r, 1)
      else
        let res := transportRequest serve a (idx + 1)
        (res.1, res.2 + 1)
    else (.error r, 1)

/-- A concrete server for the C3 witness: 500 on the first two calls, 200
afterwards. -/
def serveRetryW : Nat → HttpResponse :=
  fun i => if i < 2 then ⟨500, "boom"⟩ else ⟨200, "ok"⟩

/-! ### Query parameters

A Python dict of query parameters is an insertion-ordered association list
with distinct keys.  Values are strings, numbers (the limit default is the
integer 100), or a caller-supplied list of raw tag dicts. -/

/-- A raw caller-supplied tag object (a Python dict), possibly malformed. -/
abbrev TagObj := List (String × String)

/-- Values stored in a query-parameter dictionary. -/
inductive PVal where
  | str : String → PVal
  | nat : Nat → PVal
  | tags : List TagObj → PVal
deriving DecidableEq, Repr

/-- A query-parameter dictionary. -/
abbrev Params := List (String × PVal)

/-- Python key membership in a dict. -/
def hasKey (p : Params) (k : String) : Bool := p.any (fun kv => kv.1 == k)

/-- Python dict lookup. -/
def lookupP (p : Params) (k : String) : Option PVal :=
  (p.find? (fun kv => kv.1 == k)).map (fun kv => kv.2)

/-- Python dict assignment: overwrite in place when the key exists, append
otherwise. -/
def setKey (p : Params) (k : String) (v : PVal) : Params :=
  if hasKey p k then p.map (fun kv => if kv.1 == k then (k, v) else kv)
  else p ++ [(k, v)]

/-- Python dict pop with a default: remove the key when present. -/
def removeKey (p : Params) (k : String) : Params :=
  p.filter (fun kv => kv.1 != k)

/-- The key set of a tag dict (dict keys are unique; `eraseDups` makes the
embedding insensitive to a duplicated entry in the association list). -/
def tagObjKeys (t : TagObj) : List String := (t.map Prod.fst).eraseDups

/-- The validity check of `ProjectManager._query` and `.get`: the tag dict
has a key named key, a key named value, and exactly two keys in total. -/
def tagObjOk (t : TagObj) : Bool :=
  (tagObjKeys t).contains "key" && (tagObjKeys t).contains "value"
    && (tagObjKeys t).length == 2

/-- Indexing a validated tag dict. -/
def tagObjGet (t : TagObj) (k : String) : String :=
  (((t.find? (fun kv => kv.1 == k)).map (fun kv => kv.2)).getD "")

/-- The comma-joined key:value serialization of a validated tag list. -/
def serializeTags (l : List TagObj) : String :=
  String.intercalate ","
    (l.map (fun d => tagObjGet d "key" ++ ":" ++ tagObjGet d "value"))

/-- The tags branch of `ProjectManager._query` and `.get`: iterate the
caller-supplied value under the tags key, raise `SnykError` when a tag
dict is malformed, then replace the value by the comma-joined key:value
serialization.  Iterating a nonempty string raises too (every character
fails the membership check); an empty string serializes to the empty
string; iterating a number is a runtime error in Python, also modelled as
an error result because no claim distinguishes the exception class there. -/
def processTags : PVal → Except SnykErr PVal
  | .tags l => if l.all tagObjOk then .ok (.str (serializeTags l)) else .error .snykError
  | .str s => if s.isEmpty then .ok (.str "") else .error .snykError
  | .nat _ => .error .snykError

/-! ### Organizations and projects -/

/-- An Organization as the managers see it: id and name. -/
structure Org where
  id : String
  name : String
deriving DecidableEq, Repr

/-- One element of the data array of a projects response, after JSON
decoding: its id, its attributes (abstracted to the name), and the
attributes.tags list when present. -/
structure ProjDict where
  id : String
  name : String
  tags : Option (List Tag)
deriving DecidableEq, Repr

/-- A decoded Project: `ProjectManager` moves attributes.tags into the
cached tag list (default empty) and sets the organization back-reference. -/
structure Project where
  id : String
  name : String
  organization : Option Org
  cachedTags : List Tag
deriving DecidableEq, Repr

/-- The per-item decode of `ProjectManager._query` and `.get`: the raw
dict gets the organization entry of the owning instance, its
attributes.tags moved into the tag cache (absent tags decode to the
default empty list), and after `from_dict` the organization attribute is
overwritten with the instance itself. -/
def decodeProject (inst : Org) (d : ProjDict) : Project :=
  { id := d.id, name := d.name, organization := some inst,
    cachedTags := d.tags.getD [] }

/-- One decoded response of the projects endpoint: the data array when the
response has one, and the links.next cursor when present. -/
structure ProjPage where
  data : Option (List ProjDict)
  next : Option String

/-- The items of a page (a page without a data array serves none). -/
def ProjPage.items (page : ProjPage) : List ProjDict := page.data.getD []

/-- The server behind one scoped `ProjectManager`: the response to the
first request (which carries the query parameters) and the response to a
GET of each next link (requested with exclude_params and exclude_version,
hence a function of the link alone). -/
structure ProjServer where
  first : Params → ProjPage
  next : String → ProjPage

/-- The limit default of `ProjectManager._query`: 100 when absent. -/
def withLimitDefault (params : Params) : Params :=
  if hasKey params "limit" then params else setKey params "limit" (.nat 100)

/-- The parameter preparation of `ProjectManager._query` on the first
page: default limit, validation and serialization of the tags criteria
(`SnykError` on a malformed tag), then the meta.latest_issue_counts and
expand additions. -/
def projectQueryParams (params : Params) : Except SnykErr Params :=
  let p := withLimitDefault params
  match lookupP p "tags" with
  | some v =>
    match processTags v with
    | .error e => .error e
    | .ok v2 =>
      .ok (setKey (setKey (setKey p "tags" v2)
        "meta.latest_issue_counts" (.str "true")) "expand" (.str "target"))
  | none =>
    .ok (setKey (setKey p "meta.latest_issue_counts" (.str "true"))
      "expand" (.str "target"))

/-- The net in-place mutation `_query` applies to the params dict it was
given: on the malformed-tags error only the limit default has happened
when the raise aborts the call; recursive calls mutate nothing further
(the limit is present and the guarded branches are skipped). -/
def projectQueryParamsMut (params : Params) : Params :=
  match projectQueryParams params with
  | .ok p => p
  | .error _ => withLimitDefault params

/-- The next-link loop of `ProjectManager._query`: each recursive call
GETs the next link verbatim; a response without a data array contributes
no items and stops; a response with one contributes its decoded items and
continues while links.next is present.  Returns the projects and the
number of requests; `none` when the cursor chain outruns the fuel (a chain
the Python recursion would follow without bound). -/
def projectQueryNext (inst : Org) (srv : ProjServer) : Nat → String → Option (List Project × Nat)
  | 0, _ => none
  | fuel + 1, url =>
    let page := srv.next url
    match page.data with
    | none => some ([], 1)
    | some ds =>
      let projs := ds.map (decodeProject inst)
      match page.next with
      | none => some (projs, 1)
      | some u2 =>
        (projectQueryNext inst srv fuel u2).map (fun r => (projs ++ r.1, r.2 + 1))

/-- Scoped `ProjectManager._query`: prepare the parameters (zero requests
when the tag validation raises), GET the first page, decode its items,
follow the next links.  Result: outcome plus number of requests issued. -/
def projectQueryFuel (inst : Org) (srv : ProjServer) (fuel : Nat) (params : Params) :
    Option (Except SnykErr (List Project) × Nat) :=
  match projectQueryParams params with
  | .error e => some (.error e, 0)
  | .ok p =>
    let page := srv.first p
    match page.data with
    | none => some (.ok [], 1)
    | some ds =>
      let projs := ds.map (decodeProject inst)
      match page.next with
      | none => some (.ok projs, 1)
      | some url =>
        (projectQueryNext inst srv fuel url).map (fun r => (.ok (projs ++ r.1), r.2 + 1))

/-- The chain of pages the server serves from a next link, in the order
the pager requests them: it ends at a page without a data array or
without a next link. -/
def nextChain (srv : ProjServer) : Nat → String → Option (List ProjPage)
  | 0, _ => none
  | fuel + 1, url =>
    let page := srv.next url
    match page.data with
    | none => some [page]
    | some _ =>
      match page.next with
      | none => some [page]
      | some u2 => (nextChain srv fuel u2).map (fun c => page :: c)

/-- The full chain of pages one scoped all() makes the server serve, given
the prepared first-page parameters. -/
def projectChain (srv : ProjServer) (fuel : Nat) (p : Params) : Option (List ProjPage) :=
  let page := srv.first p
  match page.data with
  | none => some [page]
  | some _ =>
    match page.next with
    | none => some [page]
    | some url => (nextChain srv fuel url).map (fun c => page :: c)

/-- The world behind the unscoped `ProjectManager`: the organizations the
orgs endpoint returns, and each organization's projects server. -/
structure GlobalServer where
  orgs : List Org
  projSrv : Org → ProjServer

/-- The loop of the unscoped branch of `_query`: one scoped all() per
organization, concatenating results in organization order and propagating
the first error; `acc` and `cnt` accumulate projects and requests. -/
def unscopedGo (g : GlobalServer) (fuel : Nat) (p : Params) :
    List Org → List Project → Nat → Option (Except SnykErr (List Project) × Nat)
  | [], acc, cnt => some (.ok acc, cnt)
  | org :: rest, acc, cnt =>
    match projectQueryFuel org (g.projSrv org) fuel p with
    | none => none
    | some (.error e, n) => some (.error e, cnt + n)
    | some (.ok l, n) => unscopedGo g fuel p rest (acc ++ l) (cnt + n)

/-- Unscoped `ProjectManager._query`: the limit default mutates the dict
first, then organizations.all() issues one request (the orgs fetch), then
each organization runs a scoped query on a deep copy of the same
parameters. -/
def unscopedQueryFuel (g : GlobalServer) (fuel : Nat) (params : Params) :
    Option (Except SnykErr (List Project) × Nat) :=
  unscopedGo g fuel (withLimitDefault params) g.orgs [] 1

/-- The data envelope handling at the end of scoped `ProjectManager.get`:
a response with a data object decodes to a project wired to the
organization; a response without one falls through the `if` and the Python
function returns None. -/
def projectGetDecode (inst : Org) (resp : Option ProjDict) : Except SnykErr (Option Project) :=
  match resp with
  | some d => .ok (some (decodeProject inst d))
  | none => .ok none

/-- Scoped `ProjectManager.get(id)`: deep-copies the params, defaults
meta.latest_issue_counts and expand, pops the version entry (the version
string goes to the transport, which is abstracted into `resp`), validates
and serializes the tags criteria - raising before any request - then GETs
the single project.  `resp` is the decoded response body; the second
component counts requests issued. -/
def projectManagerGet (inst : Org) (params : Params) (resp : Option ProjDict) :
    Except SnykErr (Option Project) × Nat :=
  let cp := params
  let cp := if hasKey cp "meta.latest_issue_counts" then cp
            else setKey cp "meta.latest_issue_counts" (.str "true")
  let cp := if hasKey cp "expand" then cp else setKey cp "expand" (.str "target")
  let cp := removeKey cp "version"
  match lookupP cp "tags" with
  | some v =>
    match processTags v with
    | .error e => (.error e, 0)
    | .ok v2 =>
      let _sent := setKey cp "tags" v2
      (projectGetDecode inst resp, 1)
  | none => (projectGetDecode inst resp, 1)

/-- Unscoped `ProjectManager.get(id)`: a client-side search of
all(params); the first project with a matching id, else
`SnykNotFoundError`. -/
def projectManagerGetUnscoped (g : GlobalServer) (fuel : Nat) (params : Params)
    (i : String) : Option (Except SnykErr Project × Nat) :=
  match unscopedQueryFuel g fuel params with
  | none => none
  | some (.error e, n) => some (.error e, n)
  | some (.ok l, n) =>
    match l.find? (fun x => x.id == i) with
    | some x => some (.ok x, n)
    | none => some (.error .notFound, n)

/-- `ProjectManager.filter`: merge the keyword criteria with the tags
criteria (only when tags were supplied) and delegate to all(), which
forwards everything to the server as query parameters - no client-side
filtering happens. -/
def projectManagerFilter (inst : Org) (srv : ProjServer) (fuel : Nat)
    (tags : List TagObj) (kwargs : Params) : Option (Except SnykErr (List Project) × Nat) :=
  let params := if tags.length > 0 then setKey kwargs "tags" (.tags tags) else kwargs
  projectQueryFuel inst srv fuel params

/-! ### DependencyManager (`snyk/managers.py`, class `DependencyManager`) -/

/-- A raw item of the dependencies bulk endpoint (abstract payload). -/
structure DepDict where
  raw : String
deriving DecidableEq, Repr

/-- A decoded Dependency. -/
structure Dep where
  payload : String
deriving DecidableEq, Repr

/-- The from_dict decode of a dependency, abstracted: one typed record per
raw item. -/
def Dep.fromDict (d : DepDict) : Dep := ⟨d.raw⟩

/-- One decoded response of the dependencies endpoint: the declared total
and the page of results. -/
structure DepPage where
  total : Nat
  results : List DepDict

/-- `DependencyManager.all(page)`: POST for the given page (fixed page
size 1000), decode the results, and recurse on page + 1 while the declared
total exceeds page * 1000.  Returns the items plus the number of requests;
`none` when the recursion outruns the fuel. -/
def depAllFuel (srv : Nat → DepPage) : Nat → Nat → Option (List Dep × Nat)
  | 0, _ => none
  | fuel + 1, page =>
    let resp := srv page
    let results := resp.results.map Dep.fromDict
    if resp.total > page * 1000 then
      (depAllFuel srv fuel (page + 1)).map (fun r => (results ++ r.1, r.2 + 1))
    else
      some (results, 1)

/-! ### Generic manager operations (`snyk/managers.py`, classes `Manager`,
`DictManager`, `SingletonManager`) -/

/-- A generic listed resource: an id plus an abstract payload. -/
structure Entity where
  id : String
  payload : String
deriving DecidableEq, Repr

/-- `Manager.get(id)`: the first element of all() with a matching id, else
`SnykNotFoundError`. -/
def managerGet (xs : List Entity) (i : String) : Except SnykErr Entity :=
  match xs.find? (fun x => x.id == i) with
  | some x => .ok x
  | none => .error .notFound

/-- `DictManager.get(id)`: direct key lookup; the KeyError becomes
`SnykNotFoundError`. -/
def dictManagerGet (d : List (String × String)) (k : String) : Except SnykErr String :=
  match (d.find? (fun kv => kv.1 == k)).map (fun kv => kv.2) with
  | some v => .ok v
  | none => .error .notFound

/-- `SingletonManager.get(id)`: always `SnykNotImplementedError`. -/
def singletonManagerGet (α : Type) (i : String) : Except SnykErr α :=
  .error .notImplemented

/-- A simple resource instance for filtering: an assignment of field names
to values.  Reading an attribute goes through this table. -/
abbrev Fields := List (String × String)

/-- Reading an attribute of a decoded resource (declared fields are all
present; the default covers a field a criterion names but the record
lacks). -/
def getattrF (x : Fields) (k : String) : String :=
  (((x.find? (fun kv => kv.1 == k)).map (fun kv => kv.2)).getD "")

/-- `Manager._filter_by_kwargs`: one filtering pass over the data per
criterion, in criterion order. -/
def filterByKwargs (data : List Fields) (kwargs : List (String × String)) : List Fields :=
  kwargs.foldl (fun d kv => d.filter (fun x => getattrF x kv.1 == kv.2)) data

/-- `DictManager.filter`: always `SnykNotImplementedError`. -/
def dictManagerFilter (α : Type) (kwargs : List (String × String)) : Except SnykErr α :=
  .error .notImplemented

/-! ### A heap of parameter dictionaries, for the deep-copy claim -/

/-- A heap of parameter dictionaries: Python dict objects have reference
identity, so in-place mutation and deep copies must be told apart. -/
structure Heap where
  cells : List Params

/-- Dereference a dict. -/
def Heap.read (h : Heap) (r : Nat) : Params := h.cells.getD r []

/-- In-place update of a dict. -/
def Heap.write (h : Heap) (r : Nat) (v : Params) : Heap := ⟨h.cells.set r v⟩

/-- Allocate a fresh dict (what copy.deepcopy returns). -/
def Heap.alloc (h : Heap) (v : Params) : Heap × Nat :=
  (⟨h.cells ++ [v]⟩, h.cells.length)

/-- `ProjectManager._query` acting on the dict object it was handed: the
dict is mutated in place (limit default, tags serialization, meta and
expand additions) and the query runs on it. -/
def projectQueryOnHeap (inst : Org) (srv : ProjServer) (fuel : Nat) (h : Heap) (r : Nat) :
    Heap × Option (Except SnykErr (List Project) × Nat) :=
  (h.write r (projectQueryParamsMut (h.read r)),
   projectQueryFuel inst srv fuel (h.read r))

/-- `ProjectManager.all(params)`: copy_params = copy.deepcopy(params) - a
fresh dict holding the same value - then `_query` on the copy. -/
def projectManagerAllOnHeap (inst : Org) (srv : ProjServer) (fuel : Nat) (h : Heap) (r : Nat) :
    Heap × Option (Except SnykErr (List Project) × Nat) :=
  let v := h.read r
  let hr := h.alloc v
  projectQueryOnHeap inst srv fuel hr.1 hr.2

/-! ### Concrete fixtures for witnesses and counterexamples -/

/-- A fixed organization. -/
def orgW : Org := ⟨"org-1", "defaultOrg"⟩

/-- A two-page projects server: the first page serves two items and a next
link, the page behind the link serves one item and no further link. -/
def srvTwoPages : ProjServer :=
  { first := fun _ => ⟨some [⟨"p1", "a", none⟩, ⟨"p2", "b", some [⟨"t", "u"⟩]⟩],
      some "cursor1"⟩,
    next := fun _ => ⟨some [⟨"p3", "c", none⟩], none⟩ }

/-- A single-page server whose only project has the name y. -/
def srvNameY : ProjServer :=
  { first := fun _ => ⟨some [⟨"p1", "y", none⟩], none⟩,
    next := fun _ => ⟨none, none⟩ }

/-- A world with no organizations (the orgs endpoint serves an empty
list). -/
def globalNoOrgs : GlobalServer := ⟨[], fun _ => srvNameY⟩

/-- A world with one organization whose projects server is `srvNameY`. -/
def globalOneOrg : GlobalServer := ⟨[orgW], fun _ => srvNameY⟩

/-- A malformed tag object: it has a key entry but no value entry. -/
def badTag : TagObj := [("key", "k")]

/-- The decoded project that `srvNameY` serves. -/
def projY : Project := ⟨"p1", "y", some orgW, []⟩

/-- A dependencies server declaring a constant total of 1500 and serving
one item per page. -/
def depSrvW : Nat → DepPage := fun p => ⟨1500, [⟨"dep-" ++ toString p⟩]⟩

end PySnyk

namespace PySnyk

/-! ## Theorems -/

/-- A 500 response is not a success. -/
theorem status500_not_success {r : HttpResponse} (h : r.status = 500) :
    isSuccessStatus r = false := by
  simp [isSuccessStatus, h]

/-- A 500 response is a server error. -/
theorem status500_server_error {r : HttpResponse} (h : r.status = 500) :
    isServerError r = true := by
  simp [isServerError, h]

/-- A server-error response is not a success. -/
theorem server_error_not_success {r : HttpResponse} (h : isServerError r = true) :
    isSuccessStatus r = false := by
  simp only [isServerError, Bool.and_eq_true, decide_eq_true_eq] at h
  have hlt : ¬ (r.status < 400) := by omega
  simp [isSuccessStatus, hlt]

/-- One unfolding step of the retry loop: a non-success 5xx response with
attempts remaining leads to one more call and a recursive retry. -/
theorem transportRequest_step (serve : Nat → HttpResponse) (a idx : Nat)
    (ha : a ≠ 0)
    (hns : isSuccessStatus (serve idx) = false)
    (h5 : isServerError (serve idx) = true) :
    transportRequest serve (a + 1) idx
      = ((transportRequest serve a (idx + 1)).1,
         (transportRequest serve a (idx + 1)).2 + 1) := by
  conv_lhs => rw [transportRequest]
  simp [hns, h5, ha]

/-- With `b` leading 500s and a success on call `idx + b`, the transport
returns that success after exactly `b + 1` calls. -/
theorem transportRequest_success (serve : Nat → HttpResponse) :
    ∀ (b idx : Nat), (∀ j, j < b → (serve (idx + j)).status = 500) →
      isSuccessStatus (serve (idx + b)) = true →
      transportRequest serve (b + 1) idx = (.ok (serve (idx + b)), b + 1) := by
  intro b
  induction b with
  | zero =>
    intro idx _ hs
    simp only [Nat.add_zero] at hs
    simp [transportRequest, hs]
  | succ b ih =>
    intro idx h500 hs
    have h0 : (serve idx).status = 500 := by
      have := h500 0 (Nat.succ_pos b)
      simpa using this
    have hrec : transportRequest serve (b + 1) (idx + 1)
        = (.ok (serve (idx + 1 + b)), b + 1) := by
      refine ih (idx + 1) (fun j hj => ?_) ?_
      · have := h500 (j + 1) (Nat.succ_lt_succ hj)
        simpa [Nat.add_assoc, Nat.add_comm 1 j] using this
      · have : idx + 1 + b = idx + (b + 1) := by omega
        rw [this]; exact hs
    have hidx : idx + 1 + b = idx + (b + 1) := by omega
    rw [hidx] at hrec
    rw [transportRequest_step serve (b + 1) idx (Nat.succ_ne_zero b)
      (status500_not_success h0) (status500_server_error h0), hrec]

/-- When every response is a 5xx, the transport raises after exhausting
the attempts, carrying the last response. -/
theorem transportRequest_all_5xx (serve : Nat → HttpResponse)
    (h : ∀ i, isServerError (serve i) = true) :
    ∀ (b idx : Nat),
      transportRequest serve (b + 1) idx = (.error (serve (idx + b)), b + 1) := by
  intro b
  induction b with
  | zero =>
    intro idx
    simp [transportRequest, server_error_not_success (h idx), h idx]
  | succ b ih =>
    intro idx
    have hrec := ih (idx + 1)
    have hidx : idx + 1 + b = idx + (b + 1) := by omega
    rw [hidx] at hrec
    rw [transportRequest_step serve (b + 1) idx (Nat.succ_ne_zero b)
      (server_error_not_success (h idx)) (h idx), hrec]

/-- A non-success, non-5xx first response fails immediately: one call, no
retry. -/
theorem transportRequest_immediate (serve : Nat → HttpResponse) (b idx : Nat)
    (hns : isSuccessStatus (serve idx) = false)
    (hn5 : isServerError (serve idx) = false) :
    transportRequest serve (b + 1) idx = (.error (serve idx), 1) := by
  simp [transportRequest, hns, hn5]

/-- Claim C3 (spec-modelled transport): a request that gets HTTP 500
exactly `attempts - 1` times and then a success returns the success
response after exactly `attempts` calls; a request that always gets 5xx
raises the transport error carrying the last response after exactly
`attempts` calls; a non-success response that is not 5xx fails immediately
after one call, with no retry. -/
theorem claim_C3 (serve : Nat → HttpResponse) (attempts : Nat)
    (hpos : 1 ≤ attempts) :
    ((∀ i, i < attempts - 1 → (serve i).status = 500) →
      isSuccessStatus (serve (attempts - 1)) = true →
      transportRequest serve attempts 0 = (.ok (serve (attempts - 1)), attempts)) ∧
    ((∀ i, isServerError (serve i) = true) →
      transportRequest serve attempts 0 = (.error (serve (attempts - 1)), attempts)) ∧
    (isSuccessStatus (serve 0) = false → isServerError (serve 0) = false →
      transportRequest serve attempts 0 = (.error (serve 0), 1)) := by
  obtain ⟨b, rfl⟩ : ∃ b, attempts = b + 1 :=
    ⟨attempts - 1, (Nat.succ_pred_eq_of_pos hpos).symm⟩
  refine ⟨?_, ?_, ?_⟩
  · intro h500 hs
    have := transportRequest_success serve b 0
      (fun j hj => by simpa using h500 j (by simpa using hj))
      (by simpa using hs)
    simpa using this
  · intro h5
    have := transportRequest_all_5xx serve h5 b 0
    simpa using this
  · intro hns hn5
    exact transportRequest_immediate serve b 0 hns hn5

/-- Claim C3, witness: with 3 attempts against a server that serves 500,
500, 200, the hypotheses hold and the transport returns the 200 response
after exactly 3 calls. -/
theorem claim_C3_witness :
    1 ≤ 3 ∧ (∀ i, i < 3 - 1 → (serveRetryW i).status = 500) ∧
      isSuccessStatus (serveRetryW (3 - 1)) = true ∧
      transportRequest serveRetryW 3 0 = (.ok (serveRetryW (3 - 1)), 3) :=
  ⟨by decide,
   fun i hi => by interval_cases i <;> rfl,
   by decide,
   (claim_C3 serveRetryW 3 (by decide)).1
     (fun i hi => by interval_cases i <;> rfl) (by decide)⟩

/-- The next-link loop returns exactly the decoded concatenation of the
pages of the next chain, one request per page. -/
theorem projectQueryNext_eq_chain (inst : Org) (srv : ProjServer) :
    ∀ (fuel : Nat) (url : String),
      projectQueryNext inst srv fuel url
        = (nextChain srv fuel url).map
            (fun c => ((c.map ProjPage.items).flatten.map (decodeProject inst),
              c.length)) := by
  intro fuel
  induction fuel with
  | zero => intro url; rfl
  | succ fuel ih =>
    intro url
    simp only [projectQueryNext, nextChain]
    cases hd : (srv.next url).data with
    | none => simp [ProjPage.items, hd]
    | some ds =>
      cases hn : (srv.next url).next with
      | none => simp [ProjPage.items, hd]
      | some u2 =>
        dsimp only
        rw [ih u2]
        cases hc : nextChain srv fuel u2 with
        | none => rfl
        | some c => simp [ProjPage.items, hd]

/-- Scoped all() returns exactly the decoded concatenation of the pages of
the full served chain, one request per page. -/
theorem projectQueryFuel_eq_chain (inst : Org) (srv : ProjServer)
    (fuel : Nat) (params p : Params)
    (hp : projectQueryParams params = .ok p) :
    projectQueryFuel inst srv fuel params
      = (projectChain srv fuel p).map
          (fun c => (.ok ((c.map ProjPage.items).flatten.map (decodeProject inst)),
            c.length)) := by
  simp only [projectQueryFuel, projectChain, hp]
  cases hd : (srv.first p).data with
  | none => simp [ProjPage.items, hd]
  | some ds =>
    cases hn : (srv.first p).next with
    | none => simp [ProjPage.items, hd]
    | some url =>
      dsimp only
      rw [projectQueryNext_eq_chain inst srv fuel url]
      cases hc : nextChain srv fuel url with
      | none => rfl
      | some c => simp [ProjPage.items, hd]

/-- The unscoped loop concatenates the per-organization scoped results in
organization order, adding up the per-organization request counts. -/
theorem unscopedGo_concat (g : GlobalServer) (fuel : Nat) (p : Params)
    (res : Org → List Project) (cnt : Org → Nat) :
    ∀ (os : List Org) (acc : List Project) (k : Nat),
      (∀ o ∈ os, projectQueryFuel o (g.projSrv o) fuel p = some (.ok (res o), cnt o)) →
      unscopedGo g fuel p os acc k
        = some (.ok (acc ++ (os.map res).flatten), k + (os.map cnt).sum) := by
  intro os
  induction os with
  | nil => intro acc k _; simp [unscopedGo]
  | cons o rest ih =>
    intro acc k h
    have ho := h o (by simp)
    have hrest : ∀ x ∈ rest,
        projectQueryFuel x (g.projSrv x) fuel p = some (.ok (res x), cnt x) :=
      fun x hx => h x (by simp [hx])
    simp only [unscopedGo, ho]
    rw [ih (acc ++ res o) (k + cnt o) hrest]
    simp [Nat.add_assoc]

/-- The page-number pager returns exactly the decoded concatenation of the
pages it requested, which are the consecutive pages starting at the
initial one. -/
theorem depAllFuel_concat (srv : Nat → DepPage) :
    ∀ (fuel page : Nat) (r : List Dep) (n : Nat),
      depAllFuel srv fuel page = some (r, n) →
      r = ((List.range' page n).map
            (fun q => (srv q).results.map Dep.fromDict)).flatten := by
  intro fuel
  induction fuel with
  | zero => intro page r n h; exact absurd h (by simp [depAllFuel])
  | succ fuel ih =>
    intro page r n h
    by_cases hc : (srv page).total > page * 1000
    · simp only [depAllFuel, if_pos hc, Option.map_eq_some'] at h
      obtain ⟨⟨l, m⟩, hrec, heq⟩ := h
      obtain ⟨hr, hn⟩ : (srv page).results.map Dep.fromDict ++ l = r ∧ m + 1 = n := by
        simpa using heq
      subst hr
      subst hn
      rw [ih (page + 1) l m hrec]
      rw [List.range'_succ page m 1]
      simp
    · simp only [depAllFuel, if_neg hc] at h
      obtain ⟨hr, hn⟩ : (srv page).results.map Dep.fromDict = r ∧ 1 = n := by
        simpa using h
      subst hr
      subst hn
      simp [List.range']

/-- Claim C1: every paginated all() returns exactly the concatenation of
the items of every page the server serves, in served order, one request
per page - no item duplicated, none dropped.  First conjunct: the scoped
ProjectManager following next links (for any served chain, including a
single page with no items).  Second conjunct: the unscoped ProjectManager,
which concatenates the scoped runs over all organizations in order.  Third
conjunct: the DependencyManager following page numbers - any terminating
run returns the concatenation of the consecutive pages it requested. -/
theorem claim_C1 :
    (∀ (inst : Org) (srv : ProjServer) (fuel : Nat) (params p : Params),
      projectQueryParams params = .ok p →
      projectQueryFuel inst srv fuel params
        = (projectChain srv fuel p).map
            (fun c => (.ok ((c.map ProjPage.items).flatten.map (decodeProject inst)),
              c.length))) ∧
    (∀ (g : GlobalServer) (fuel : Nat) (params : Params)
        (res : Org → List Project) (cnt : Org → Nat),
      (∀ o ∈ g.orgs, projectQueryFuel o (g.projSrv o) fuel (withLimitDefault params)
          = some (.ok (res o), cnt o)) →
      unscopedQueryFuel g fuel params
        = some (.ok ((g.orgs.map res).flatten), 1 + (g.orgs.map cnt).sum)) ∧
    (∀ (srv : Nat → DepPage) (fuel : Nat) (r : List Dep) (n : Nat),
      depAllFuel srv fuel 1 = some (r, n) →
      r = ((List.range' 1 n).map
            (fun q => (srv q).results.map Dep.fromDict)).flatten) := by
  refine ⟨?_, ?_, ?_⟩
  · intro inst srv fuel params p hp
    exact projectQueryFuel_eq_chain inst srv fuel params p hp
  · intro g fuel params res cnt h
    unfold unscopedQueryFuel
    rw [unscopedGo_concat g fuel (withLimitDefault params) res cnt g.orgs [] 1 h]
    simp
  · intro srv fuel r n h
    exact depAllFuel_concat srv fuel 1 r n h

/-- Claim C1, witness: a concrete two-page cursor run returns the three
decoded items of both pages in order after two requests, and a concrete
two-page dependency run (total 1500, page size 1000) returns its two items
in order. -/
theorem claim_C1_witness :
    (projectQueryParams [] = .ok [("limit", .nat 100),
        ("meta.latest_issue_counts", .str "true"), ("expand", .str "target")] ∧
      projectQueryFuel orgW srvTwoPages 5 []
        = (projectChain srvTwoPages 5 [("limit", .nat 100),
              ("meta.latest_issue_counts", .str "true"), ("expand", .str "target")]).map
            (fun c => (.ok ((c.map ProjPage.items).flatten.map (decodeProject orgW)),
              c.length))) ∧
    (depAllFuel depSrvW 3 1 = some ([⟨"dep-1"⟩, ⟨"dep-2"⟩], 2) ∧
      [(⟨"dep-1"⟩ : Dep), ⟨"dep-2"⟩]
        = ((List.range' 1 2).map
            (fun q => (depSrvW q).results.map Dep.fromDict)).flatten) :=
  ⟨⟨by rfl,
    claim_C1.1 orgW srvTwoPages 5 [] [("limit", .nat 100),
      ("meta.latest_issue_counts", .str "true"), ("expand", .str "target")] (by rfl)⟩,
   ⟨by rfl,
    claim_C1.2.2 depSrvW 3 [⟨"dep-1"⟩, ⟨"dep-2"⟩] 2 (by rfl)⟩⟩

/-- The recursion guard of the dependency pager, in terms of the ceiling
of total over the fixed page size. -/
theorem dep_page_bound (T p : Nat) : T > p * 1000 ↔ p + 1 ≤ (T + 999) / 1000 := by
  rw [Nat.le_div_iff_mul_le (by norm_num : 0 < 1000)]
  omega

/-- With a constant declared total and enough fuel, the dependency pager
terminates from any starting page, issuing one request per page up to the
server-declared end. -/
theorem depAllFuel_terminates (srv : Nat → DepPage) (T : Nat)
    (htotal : ∀ p, (srv p).total = T) :
    ∀ (fuel p : Nat), max 1 ((T + 999) / 1000 + 1 - p) ≤ fuel →
      ∃ items, depAllFuel srv fuel p
        = some (items, max 1 ((T + 999) / 1000 + 1 - p)) := by
  intro fuel
  induction fuel with
  | zero =>
    intro p hf
    exact absurd (le_trans (le_max_left 1 _) hf) (by omega)
  | succ fuel ih =>
    intro p hf
    by_cases hgt : (srv p).total > p * 1000
    · have hT : T > p * 1000 := by rw [htotal p] at hgt; exact hgt
      have hpM : p + 1 ≤ (T + 999) / 1000 := (dep_page_bound T p).mp hT
      have hb : max 1 ((T + 999) / 1000 + 1 - (p + 1)) ≤ fuel := by omega
      obtain ⟨items2, h2⟩ := ih (p + 1) hb
      refine ⟨(srv p).results.map Dep.fromDict ++ items2, ?_⟩
      simp only [depAllFuel, if_pos hgt, h2, Option.map_some']
      have hcnt : max 1 ((T + 999) / 1000 + 1 - (p + 1)) + 1
          = max 1 ((T + 999) / 1000 + 1 - p) := by omega
      rw [hcnt]
    · have hT : ¬ T > p * 1000 := by rw [htotal p] at hgt; exact hgt
      have hpM : ¬ (p + 1 ≤ (T + 999) / 1000) :=
        fun hc => hT ((dep_page_bound T p).mpr hc)
      refine ⟨(srv p).results.map Dep.fromDict, ?_⟩
      simp only [depAllFuel, if_neg hgt]
      have hcnt : max 1 ((T + 999) / 1000 + 1 - p) = 1 := by omega
      rw [hcnt]

/-- Claim C6: when every page response reports the same total `T`,
`DependencyManager.all` starting at page 1 terminates (given fuel at least
the request count), issues exactly `max 1 (ceil (T / 1000))` requests, and
requests page `N + 1` exactly when `T > N * 1000`. -/
theorem claim_C6 (srv : Nat → DepPage) (T fuel : Nat)
    (htotal : ∀ p, (srv p).total = T)
    (hfuel : max 1 ((T + 999) / 1000) ≤ fuel) :
    (∃ items, depAllFuel srv fuel 1 = some (items, max 1 ((T + 999) / 1000))) ∧
    (∀ N, 1 ≤ N → (N + 1 ≤ max 1 ((T + 999) / 1000) ↔ T > N * 1000)) := by
  constructor
  · have h := depAllFuel_terminates srv T htotal fuel 1 (by
      have : (T + 999) / 1000 + 1 - 1 = (T + 999) / 1000 := by omega
      rw [this]; exact hfuel)
    have hs : (T + 999) / 1000 + 1 - 1 = (T + 999) / 1000 := by omega
    rw [hs] at h
    exact h
  · intro N hN
    constructor
    · intro h
      exact (dep_page_bound T N).mpr (by omega)
    · intro h
      have := (dep_page_bound T N).mp h
      omega

/-- Claim C6, witness: with a constant total of 1500 and fuel 2, the pager
stops after exactly 2 requests, and page N + 1 is requested exactly when
1500 exceeds N * 1000. -/
theorem claim_C6_witness :
    (∀ p, (depSrvW p).total = 1500) ∧ max 1 ((1500 + 999) / 1000) ≤ 2 ∧
      ((∃ items, depAllFuel depSrvW 2 1 = some (items, max 1 ((1500 + 999) / 1000))) ∧
        (∀ N, 1 ≤ N → (N + 1 ≤ max 1 ((1500 + 999) / 1000) ↔ 1500 > N * 1000))) :=
  ⟨fun _ => rfl, by decide, claim_C6 depSrvW 1500 2 (fun _ => rfl) (by decide)⟩

/-- Unfolding a dict lookup over a cons cell. -/
theorem lookupP_cons (kv : String × PVal) (rest : Params) (k : String) :
    lookupP (kv :: rest) k = if kv.1 == k then some kv.2 else lookupP rest k := by
  by_cases h : (kv.1 == k) = true
  · simp [lookupP, List.find?_cons_of_pos _ h, h]
  · simp [lookupP, List.find?_cons_of_neg _ h, h]

/-- Overwriting the entry of one key leaves lookups of a different key
unchanged. -/
theorem lookupP_overwrite (k k2 : String) (v : PVal) (hne : (k == k2) = false) :
    ∀ (p : Params),
      lookupP (p.map (fun kv => if kv.1 == k then (k, v) else kv)) k2
        = lookupP p k2 := by
  intro p
  induction p with
  | nil => rfl
  | cons kv rest ih =>
    simp only [List.map_cons]
    rw [lookupP_cons, lookupP_cons, ih]
    by_cases hkv : (kv.1 == k) = true
    · have hk1 : kv.1 = k := by simpa using hkv
      have hkv2 : (kv.1 == k2) = false := by rw [hk1]; exact hne
      simp [hkv, hne, hkv2]
    · simp only [Bool.not_eq_true] at hkv
      simp [hkv]

/-- Appending an entry for one key leaves lookups of a different key
unchanged. -/
theorem lookupP_append_ne (k k2 : String) (v : PVal) (hne : (k == k2) = false) :
    ∀ (p : Params), lookupP (p ++ [(k, v)]) k2 = lookupP p k2 := by
  intro p
  induction p with
  | nil => simp [lookupP, List.find?, hne]
  | cons kv rest ih =>
    simp only [List.cons_append]
    rw [lookupP_cons, lookupP_cons, ih]

/-- Dict assignment under one key leaves lookups of a different key
unchanged. -/
theorem lookupP_setKey_ne (k k2 : String) (v : PVal) (hne : (k == k2) = false)
    (p : Params) : lookupP (setKey p k v) k2 = lookupP p k2 := by
  unfold setKey
  split
  · exact lookupP_overwrite k k2 v hne p
  · exact lookupP_append_ne k k2 v hne p

/-- Conditionally defaulting one key leaves lookups of a different key
unchanged. -/
theorem lookupP_ite_setKey_ne (c : Prop) [Decidable c] (p : Params)
    (k k2 : String) (v : PVal) (hne : (k == k2) = false) :
    lookupP (if c then p else setKey p k v) k2 = lookupP p k2 := by
  split
  · rfl
  · exact lookupP_setKey_ne k k2 v hne p

/-- Popping one key leaves lookups of a different key unchanged. -/
theorem lookupP_removeKey_ne (k k2 : String) (hne : (k == k2) = false) :
    ∀ (p : Params), lookupP (removeKey p k) k2 = lookupP p k2 := by
  intro p
  induction p with
  | nil => rfl
  | cons kv rest ih =>
    unfold removeKey at ih ⊢
    simp only [List.filter_cons]
    by_cases hkv : (kv.1 != k) = true
    · rw [if_pos hkv, lookupP_cons, lookupP_cons, ih]
    · have hk1 : kv.1 = k := by
        simp only [bne, Bool.not_eq_true, Bool.not_eq_false] at hkv
        simpa using hkv
      rw [if_neg hkv, lookupP_cons, ih]
      have hkv2 : (kv.1 == k2) = false := by rw [hk1]; exact hne
      simp [hkv2]

/-- The limit default does not touch the tags entry. -/
theorem lookupP_withLimitDefault_tags (p : Params) :
    lookupP (withLimitDefault p) "tags" = lookupP p "tags" := by
  unfold withLimitDefault
  split
  · rfl
  · exact lookupP_setKey_ne "limit" "tags" (.nat 100) (by decide) p

/-- A malformed entry in the tags criteria makes the first-page parameter
preparation raise `SnykError`. -/
theorem projectQueryParams_malformed (params : Params) (l : List TagObj)
    (hl : lookupP params "tags" = some (.tags l))
    (hbad : l.all tagObjOk = false) :
    projectQueryParams params = .error .snykError := by
  unfold projectQueryParams
  dsimp only
  rw [lookupP_withLimitDefault_tags params, hl]
  simp [processTags, hbad]

/-- Scoped all() with a malformed tag raises before any request: zero
requests issued. -/
theorem projectQueryFuel_malformed (inst : Org) (srv : ProjServer) (fuel : Nat)
    (params : Params) (l : List TagObj)
    (hl : lookupP params "tags" = some (.tags l))
    (hbad : l.all tagObjOk = false) :
    projectQueryFuel inst srv fuel params = some (.error .snykError, 0) := by
  unfold projectQueryFuel
  rw [projectQueryParams_malformed params l hl hbad]

/-- The tags entry seen by scoped get after its meta, expand and version
dict manipulations is the tags entry of the caller params. -/
theorem projectManagerGet_tags_entry (params : Params) :
    lookupP (removeKey
      (if hasKey (if hasKey params "meta.latest_issue_counts" then params
          else setKey params "meta.latest_issue_counts" (.str "true")) "expand"
        then (if hasKey params "meta.latest_issue_counts" then params
          else setKey params "meta.latest_issue_counts" (.str "true"))
        else setKey (if hasKey params "meta.latest_issue_counts" then params
          else setKey params "meta.latest_issue_counts" (.str "true"))
          "expand" (.str "target")) "version") "tags"
      = lookupP params "tags" := by
  rw [lookupP_removeKey_ne "version" "tags" (by decide)]
  rw [lookupP_ite_setKey_ne _ _ "expand" "tags" (.str "target") (by decide)]
  exact lookupP_ite_setKey_ne _ _ "meta.latest_issue_counts" "tags" (.str "true")
    (by decide)

/-- Scoped get with a malformed tag raises before any request: zero
requests issued. -/
theorem projectManagerGet_malformed (inst : Org) (params : Params)
    (resp : Option ProjDict) (l : List TagObj)
    (hl : lookupP params "tags" = some (.tags l))
    (hbad : l.all tagObjOk = false) :
    projectManagerGet inst params resp = (.error .snykError, 0) := by
  unfold projectManagerGet
  dsimp only
  rw [projectManagerGet_tags_entry params, hl]
  simp [processTags, hbad]

/-- Scoped get with no tags criteria issues the single request and decodes
the response envelope. -/
theorem projectManagerGet_no_tags (inst : Org) (params : Params)
    (resp : Option ProjDict)
    (hl : lookupP params "tags" = none) :
    projectManagerGet inst params resp = (projectGetDecode inst resp, 1) := by
  unfold projectManagerGet
  dsimp only
  rw [projectManagerGet_tags_entry params, hl]

/-- Claim C9, counterexample: the unscoped ProjectManager does not
validate tags before its first request.  With a malformed tag (a key but
no value) and a world with no organizations, the call issues one request
(the orgs fetch) and returns the empty list with no error at all; with one
organization it raises, but only after that first request - never with
zero requests. -/
theorem claim_C9_counterexample :
    unscopedQueryFuel globalNoOrgs 1 [("tags", .tags [badTag])]
      = some (.ok [], 1) ∧
    unscopedQueryFuel globalOneOrg 1 [("tags", .tags [badTag])]
      = some (.error .snykError, 1) := by
  constructor
  · rfl
  · rfl

/-- Claim C9, amended: a scoped ProjectManager (all, filter or get bound
to an organization) given a tag object missing key, missing value, or with
an extra key raises `SnykError` before any HTTP request - zero requests
issued.  The unscoped ProjectManager instead issues the organizations
request first: with no organizations it returns the empty list without any
validation error, and with at least one organization it raises after
exactly one request. -/
theorem claim_C9_amended :
    (∀ (inst : Org) (srv : ProjServer) (fuel : Nat) (params : Params)
        (l : List TagObj),
      lookupP params "tags" = some (.tags l) → l.all tagObjOk = false →
      projectQueryFuel inst srv fuel params = some (.error .snykError, 0)) ∧
    (∀ (inst : Org) (params : Params) (resp : Option ProjDict) (l : List TagObj),
      lookupP params "tags" = some (.tags l) → l.all tagObjOk = false →
      projectManagerGet inst params resp = (.error .snykError, 0)) ∧
    (∀ (g : GlobalServer) (fuel : Nat) (params : Params),
      g.orgs = [] → unscopedQueryFuel g fuel params = some (.ok [], 1)) ∧
    (∀ (g : GlobalServer) (fuel : Nat) (params : Params) (l : List TagObj)
        (o : Org) (rest : List Org),
      g.orgs = o :: rest →
      lookupP params "tags" = some (.tags l) → l.all tagObjOk = false →
      unscopedQueryFuel g fuel params = some (.error .snykError, 1)) := by
  refine ⟨?_, ?_, ?_, ?_⟩
  · intro inst srv fuel params l hl hbad
    exact projectQueryFuel_malformed inst srv fuel params l hl hbad
  · intro inst params resp l hl hbad
    exact projectManagerGet_malformed inst params resp l hl hbad
  · intro g fuel params horgs
    unfold unscopedQueryFuel
    rw [horgs]
    rfl
  · intro g fuel params l o rest horgs hl hbad
    unfold unscopedQueryFuel
    rw [horgs]
    unfold unscopedGo
    rw [projectQueryFuel_malformed o (g.projSrv o) fuel (withLimitDefault params) l
      (by rw [lookupP_withLimitDefault_tags]; exact hl) hbad]

/-- Claim C9 witness: a scoped query given one malformed tag raises with
zero requests issued. -/
theorem claim_C9_witness :
    lookupP [("tags", PVal.tags [badTag])] "tags" = some (.tags [badTag]) ∧
      [badTag].all tagObjOk = false ∧
      projectQueryFuel orgW srvNameY 1 [("tags", PVal.tags [badTag])]
        = some (.error .snykError, 0) :=
  ⟨by decide, by decide,
   claim_C9_amended.1 orgW srvNameY 1 [("tags", PVal.tags [badTag])] [badTag]
     (by decide) (by decide)⟩

/-- When the sublist of elements satisfying a predicate is one element,
the first satisfying element is that element. -/
theorem find?_of_filter_singleton {α : Type} (p : α → Bool) :
    ∀ (xs : List α) (x : α), xs.filter p = [x] → xs.find? p = some x := by
  intro xs
  induction xs with
  | nil => intro x h; simp at h
  | cons y ys ih =>
    intro x h
    by_cases hy : p y = true
    · rw [List.filter_cons_of_pos hy] at h
      obtain ⟨h1, h2⟩ := List.cons_eq_cons.mp h
      rw [List.find?_cons_of_pos _ hy, h1]
    · rw [List.filter_cons_of_neg hy] at h
      rw [List.find?_cons_of_neg _ hy]
      exact ih x h

/-- Claim C4, counterexample: the scoped `ProjectManager.get` does not
raise a not-found error when no item matches.  When the response body has
no data envelope (the id matched nothing to serve), the Python function
falls through its `if` and returns None: no error of any kind is raised,
after one request. -/
theorem claim_C4_counterexample :
    projectManagerGet orgW [] none = (.ok none, 1) ∧
    (projectManagerGet orgW [] none).1 ≠ .error .notFound := by
  constructor
  · rfl
  · have h1 : projectManagerGet orgW [] none = (.ok none, 1) := rfl
    rw [h1]
    simp

/-- Claim C4, amended: `get(id)` returns the unique matching item when one
exists and raises `SnykNotFoundError` when none matches, for every resource
type using the generic client-side lookup (and for the dict lookup, and for
the unscoped ProjectManager); `get` on a singleton-typed manager always
raises `SnykNotImplementedError`.  The scoped `ProjectManager.get`,
however, issues one direct request and decodes the data envelope when
present; when the response carries no data envelope it returns None
instead of raising a not-found error (and an HTTP 404 would surface as a
transport error, not a not-found error). -/
theorem claim_C4_amended :
    (∀ (xs : List Entity) (i : String) (x : Entity),
      xs.filter (fun y => y.id == i) = [x] → managerGet xs i = .ok x) ∧
    (∀ (xs : List Entity) (i : String),
      (∀ x ∈ xs, ¬ x.id = i) → managerGet xs i = .error .notFound) ∧
    (∀ (d : List (String × String)) (k v : String),
      ((d.find? (fun kv => kv.1 == k)).map (fun kv => kv.2) = some v →
        dictManagerGet d k = .ok v) ∧
      ((d.find? (fun kv => kv.1 == k)).map (fun kv => kv.2) = none →
        dictManagerGet d k = .error .notFound)) ∧
    (∀ (α : Type) (i : String), singletonManagerGet α i = .error .notImplemented) ∧
    (∀ (inst : Org) (params : Params) (d : ProjDict),
      lookupP params "tags" = none →
      projectManagerGet inst params (some d)
        = (.ok (some (decodeProject inst d)), 1)) ∧
    (∀ (inst : Org) (params : Params),
      lookupP params "tags" = none →
      projectManagerGet inst params none = (.ok none, 1)) ∧
    (∀ (g : GlobalServer) (fuel : Nat) (params : Params) (i : String)
        (l : List Project) (n : Nat),
      unscopedQueryFuel g fuel params = some (.ok l, n) →
      ((∀ x ∈ l, ¬ x.id = i) →
        projectManagerGetUnscoped g fuel params i = some (.error .notFound, n)) ∧
      (∀ x, l.find? (fun y => y.id == i) = some x →
        projectManagerGetUnscoped g fuel params i = some (.ok x, n))) := by
  refine ⟨?_, ?_, ?_, ?_, ?_, ?_, ?_⟩
  · intro xs i x h
    unfold managerGet
    rw [find?_of_filter_singleton (fun y => y.id == i) xs x h]
  · intro xs i h
    unfold managerGet
    rw [List.find?_eq_none.mpr (fun x hx => by simpa using h x hx)]
  · intro d k v
    constructor
    · intro h
      unfold dictManagerGet
      rw [h]
    · intro h
      unfold dictManagerGet
      rw [h]
  · intro α i
    rfl
  · intro inst params d hl
    rw [projectManagerGet_no_tags inst params (some d) hl]
    rfl
  · intro inst params hl
    rw [projectManagerGet_no_tags inst params none hl]
    rfl
  · intro g fuel params i l n h
    constructor
    · intro hnone
      unfold projectManagerGetUnscoped
      rw [h]
      dsimp only
      rw [List.find?_eq_none.mpr (fun x hx => by simpa using hnone x hx)]
    · intro x hfind
      unfold projectManagerGetUnscoped
      rw [h]
      dsimp only
      rw [hfind]

/-- Claim C4 witness: the generic lookup raises `SnykNotFoundError` on a
collection with no matching id. -/
theorem claim_C4_witness :
    (∀ x ∈ [(⟨"a", "pay"⟩ : Entity)], ¬ x.id = "b") ∧
      managerGet [(⟨"a", "pay"⟩ : Entity)] "b" = .error .notFound :=
  ⟨by decide, claim_C4_amended.2.1 [⟨"a", "pay"⟩] "b" (by decide)⟩

/-- Claim C5, counterexample: `ProjectManager` is a list-shaped manager,
but its filter forwards the criteria to the server instead of filtering
client-side.  Against a server that ignores query parameters and serves a
single project named y, filtering on name equal to x returns that project
even though it fails the criterion, while the sublist of all() satisfying
the criterion is empty. -/
theorem claim_C5_counterexample :
    projectManagerFilter orgW srvNameY 1 [] [("name", PVal.str "x")]
      = some (.ok [projY], 1) ∧
    projectQueryFuel orgW srvNameY 1 [] = some (.ok [projY], 1) ∧
    [projY].filter (fun proj => proj.name == "x") = [] := by
  refine ⟨rfl, rfl, rfl⟩

/-- Claim C5, amended: `filter` on every dict-shaped manager raises
`SnykNotImplementedError`; `filter` on every list-shaped manager that uses
the generic client-side path (all of them except `ProjectManager`) returns
exactly the sublist of all() whose elements satisfy every supplied
field-equality criterion, and with no criteria it returns the full
collection unchanged.  `ProjectManager.filter` instead translates the
criteria into server-side query parameters, so its result is whatever the
server returns for those parameters, not a client-side sublist of all(). -/
theorem claim_C5_amended :
    (∀ (α : Type) (kwargs : List (String × String)),
      dictManagerFilter α kwargs = .error .notImplemented) ∧
    (∀ (data : List Fields) (kwargs : List (String × String)),
      filterByKwargs data kwargs
        = data.filter (fun x => kwargs.all (fun kv => getattrF x kv.1 == kv.2))) ∧
    (∀ (data : List Fields), filterByKwargs data [] = data) := by
  refine ⟨fun α kwargs => rfl, ?_, fun data => rfl⟩
  intro data kwargs
  induction kwargs generalizing data with
  | nil => simp [filterByKwargs]
  | cons kv rest ih =>
    have h1 : filterByKwargs data (kv :: rest)
        = filterByKwargs (data.filter (fun x => getattrF x kv.1 == kv.2)) rest := rfl
    rw [h1, ih]
    rw [List.filter_filter]
    refine List.filter_congr (fun x _ => ?_)
    simp [List.all_cons, Bool.and_comm]

/-- Every project a scoped query returns carries the owning organization. -/
theorem projectQueryFuel_org (inst : Org) (srv : ProjServer) (fuel : Nat)
    (params : Params) (l : List Project) (n : Nat)
    (h : projectQueryFuel inst srv fuel params = some (.ok l, n)) :
    ∀ proj ∈ l, proj.organization = some inst := by
  cases hp : projectQueryParams params with
  | error e =>
    unfold projectQueryFuel at h
    rw [hp] at h
    simp at h
  | ok p =>
    rw [projectQueryFuel_eq_chain inst srv fuel params p hp] at h
    cases hc : projectChain srv fuel p with
    | none => rw [hc] at h; simp at h
    | some c =>
      rw [hc] at h
      simp only [Option.map_some', Option.some.injEq, Prod.mk.injEq] at h
      obtain ⟨h1, -⟩ := h
      have hl : l = (c.map ProjPage.items).flatten.map (decodeProject inst) := by
        cases h1.symm
        rfl
      intro proj hmem
      rw [hl] at hmem
      simp only [List.mem_map] at hmem
      obtain ⟨d, -, rfl⟩ := hmem
      rfl

/-- Every project the unscoped loop returns carries some organization. -/
theorem unscopedGo_org (g : GlobalServer) (fuel : Nat) (p : Params) :
    ∀ (os : List Org) (acc : List Project) (k : Nat) (l : List Project) (n : Nat),
      (∀ proj ∈ acc, ∃ o, proj.organization = some o) →
      unscopedGo g fuel p os acc k = some (.ok l, n) →
      ∀ proj ∈ l, ∃ o, proj.organization = some o := by
  intro os
  induction os with
  | nil =>
    intro acc k l n hacc h
    unfold unscopedGo at h
    simp only [Option.some.injEq, Prod.mk.injEq, Except.ok.injEq] at h
    obtain ⟨h1, -⟩ := h
    rw [← h1]
    exact hacc
  | cons o rest ih =>
    intro acc k l n hacc h
    unfold unscopedGo at h
    cases hq : projectQueryFuel o (g.projSrv o) fuel p with
    | none => rw [hq] at h; simp at h
    | some r =>
      obtain ⟨res, m⟩ := r
      cases res with
      | error e => rw [hq] at h; simp at h
      | ok lo =>
        rw [hq] at h
        refine ih (acc ++ lo) (k + m) l n ?_ h
        intro proj hmem
        rcases List.mem_append.mp hmem with hmem | hmem
        · exact hacc proj hmem
        · exact ⟨o, projectQueryFuel_org o (g.projSrv o) fuel p lo m hq proj hmem⟩

/-- Claim C8: every Project instance returned by any manager method has
its organization reference populated before it is returned.  Scoped all()
wires every project to the owning instance; unscoped all() wires every
project to one of the fetched organizations; scoped get wires the decoded
project to the instance; unscoped get returns a member of unscoped all(). -/
theorem claim_C8 :
    (∀ (inst : Org) (srv : ProjServer) (fuel : Nat) (params : Params)
        (l : List Project) (n : Nat),
      projectQueryFuel inst srv fuel params = some (.ok l, n) →
      ∀ proj ∈ l, proj.organization = some inst) ∧
    (∀ (g : GlobalServer) (fuel : Nat) (params : Params)
        (l : List Project) (n : Nat),
      unscopedQueryFuel g fuel params = some (.ok l, n) →
      ∀ proj ∈ l, ∃ o, proj.organization = some o) ∧
    (∀ (inst : Org) (params : Params) (resp : Option ProjDict)
        (proj : Project) (n : Nat),
      projectManagerGet inst params resp = (.ok (some proj), n) →
      proj.organization = some inst) ∧
    (∀ (g : GlobalServer) (fuel : Nat) (params : Params) (i : String)
        (proj : Project) (n : Nat),
      projectManagerGetUnscoped g fuel params i = some (.ok proj, n) →
      ∃ o, proj.organization = some o) := by
  refine ⟨?_, ?_, ?_, ?_⟩
  · intro inst srv fuel params l n h
    exact projectQueryFuel_org inst srv fuel params l n h
  · intro g fuel params l n h
    unfold unscopedQueryFuel at h
    exact unscopedGo_org g fuel (withLimitDefault params) g.orgs [] 1 l n
      (by intro proj hmem; simp at hmem) h
  · intro inst params resp proj n h
    unfold projectManagerGet at h
    dsimp only at h
    cases hlk : lookupP (removeKey
        (if hasKey (if hasKey params "meta.latest_issue_counts" then params
            else setKey params "meta.latest_issue_counts" (.str "true")) "expand"
          then (if hasKey params "meta.latest_issue_counts" then params
            else setKey params "meta.latest_issue_counts" (.str "true"))
          else setKey (if hasKey params "meta.latest_issue_counts" then params
            else setKey params "meta.latest_issue_counts" (.str "true"))
            "expand" (.str "target")) "version") "tags" with
    | none =>
      rw [hlk] at h
      cases resp with
      | none => simp [projectGetDecode] at h
      | some d =>
        simp only [projectGetDecode, Prod.mk.injEq, Except.ok.injEq,
          Option.some.injEq] at h
        obtain ⟨h1, -⟩ := h
        rw [← h1]
        rfl
    | some v =>
      rw [hlk] at h
      dsimp only at h
      cases hv : processTags v with
      | error e => rw [hv] at h; simp at h
      | ok v2 =>
        rw [hv] at h
        cases resp with
        | none => simp [projectGetDecode] at h
        | some d =>
          simp only [projectGetDecode, Prod.mk.injEq, Except.ok.injEq,
            Option.some.injEq] at h
          obtain ⟨h1, -⟩ := h
          rw [← h1]
          rfl
  · intro g fuel params i proj n h
    unfold projectManagerGetUnscoped at h
    cases hq : unscopedQueryFuel g fuel params with
    | none => rw [hq] at h; simp at h
    | some r =>
      obtain ⟨res, m⟩ := r
      cases res with
      | error e => rw [hq] at h; simp at h
      | ok l =>
        rw [hq] at h
        dsimp only at h
        cases hf : l.find? (fun x => x.id == i) with
        | none => rw [hf] at h; simp at h
        | some x =>
          rw [hf] at h
          simp only [Option.some.injEq, Prod.mk.injEq, Except.ok.injEq] at h
          obtain ⟨h1, -⟩ := h
          rw [← h1]
          have hmem : x ∈ l := List.mem_of_find?_eq_some hf
          unfold unscopedQueryFuel at hq
          exact unscopedGo_org g fuel (withLimitDefault params) g.orgs [] 1 l m
            (by intro p hp; simp at hp) hq x hmem

/-- Claim C8 witness: the three projects a concrete two-page scoped run
returns all carry the owning organization. -/
theorem claim_C8_witness :
    projectQueryFuel orgW srvTwoPages 5 []
        = some (.ok [⟨"p1", "a", some orgW, []⟩,
            ⟨"p2", "b", some orgW, [⟨"t", "u"⟩]⟩,
            ⟨"p3", "c", some orgW, []⟩], 2) ∧
      ∀ proj ∈ [(⟨"p1", "a", some orgW, []⟩ : Project),
          ⟨"p2", "b", some orgW, [⟨"t", "u"⟩]⟩,
          ⟨"p3", "c", some orgW, []⟩], proj.organization = some orgW :=
  ⟨by rfl,
   claim_C8.1 orgW srvTwoPages 5 []
     [⟨"p1", "a", some orgW, []⟩, ⟨"p2", "b", some orgW, [⟨"t", "u"⟩]⟩,
      ⟨"p3", "c", some orgW, []⟩] 2 (by rfl)⟩

/-- Setting the cell just past a list replaces the appended element. -/
theorem set_append_length {α : Type} (b : α) :
    ∀ (l1 : List α) (a : α), (l1 ++ [a]).set l1.length b = l1 ++ [b] := by
  intro l1
  induction l1 with
  | nil => intro a; rfl
  | cons x xs ih =>
    intro a
    simp only [List.cons_append, List.length_cons, List.set_cons_succ]
    rw [ih a]

/-- Claim C10: `ProjectManager.all(params)` operates on a deep copy, so
the caller dict is unchanged after the call (first conjunct), even though
the copied dict is mutated by the query - it ends up holding the fully
prepared parameters (second conjunct) - and the query result is computed
from the caller value (third conjunct). -/
theorem claim_C10 (inst : Org) (srv : ProjServer) (fuel : Nat) (h : Heap)
    (r : Nat) (hr : r < h.cells.length) :
    (projectManagerAllOnHeap inst srv fuel h r).1.read r = h.read r ∧
    (projectManagerAllOnHeap inst srv fuel h r).1.read h.cells.length
      = projectQueryParamsMut (h.read r) ∧
    (projectManagerAllOnHeap inst srv fuel h r).2
      = projectQueryFuel inst srv fuel (h.read r) := by
  have hcopy : Heap.read ⟨h.cells ++ [h.read r]⟩ h.cells.length = h.read r := by
    unfold Heap.read
    rw [List.getD_append_right _ _ _ _ (Nat.le_refl _)]
    simp
  have hwrite : (projectManagerAllOnHeap inst srv fuel h r).1
      = ⟨h.cells ++ [projectQueryParamsMut (h.read r)]⟩ := by
    unfold projectManagerAllOnHeap projectQueryOnHeap Heap.alloc Heap.write
    dsimp only
    rw [hcopy, set_append_length]
  refine ⟨?_, ?_, ?_⟩
  · rw [hwrite]
    unfold Heap.read
    exact List.getD_append _ _ _ _ hr
  · rw [hwrite]
    unfold Heap.read
    rw [List.getD_append_right _ _ _ _ (Nat.le_refl _)]
    simp
  · unfold projectManagerAllOnHeap projectQueryOnHeap Heap.alloc
    dsimp only
    rw [hcopy]

/-- Claim C10 witness: on a heap holding one caller dict with a custom
limit, all() leaves that dict unchanged while the internal copy gains the
prepared entries, whose value differs from the caller value. -/
theorem claim_C10_witness :
    0 < (Heap.mk [[("limit", PVal.nat 5)]]).cells.length ∧
      ((projectManagerAllOnHeap orgW srvNameY 1 ⟨[[("limit", PVal.nat 5)]]⟩ 0).1.read 0
          = Heap.read ⟨[[("limit", PVal.nat 5)]]⟩ 0 ∧
        (projectManagerAllOnHeap orgW srvNameY 1 ⟨[[("limit", PVal.nat 5)]]⟩ 0).1.read
            (Heap.mk [[("limit", PVal.nat 5)]]).cells.length
          = projectQueryParamsMut (Heap.read ⟨[[("limit", PVal.nat 5)]]⟩ 0) ∧
        (projectManagerAllOnHeap orgW srvNameY 1 ⟨[[("limit", PVal.nat 5)]]⟩ 0).2
          = projectQueryFuel orgW srvNameY 1 (Heap.read ⟨[[("limit", PVal.nat 5)]]⟩ 0)) ∧
      projectQueryParamsMut (Heap.read ⟨[[("limit", PVal.nat 5)]]⟩ 0)
        ≠ Heap.read ⟨[[("limit", PVal.nat 5)]]⟩ 0 :=
  ⟨by decide,
   claim_C10 orgW srvNameY 1 ⟨[[("limit", PVal.nat 5)]]⟩ 0 (by decide),
   by decide⟩

/-- Claim C2, counterexample: starting from a project whose cached tag list
is the single tag k1 : v1, calling add of k2 : v2 and then delete of
k2 : v2 does NOT restore the original list: reading tags (the cached
`_tags`) still yields both tags, because delete never writes the filtered
list back to the cache. -/
theorem claim_C2_counterexample :
    tagManagerAll
        (tagManagerDelete true
          (tagManagerAdd true [⟨"k1", "v1"⟩] "k2" "v2").finalTags
          "k2" "v2").finalTags ≠ [(⟨"k1", "v1"⟩ : Tag)] := by
  decide

/-- Claim C2, amended: with cached tags holding only k1 : v1, add of
k2 : v2 makes reading tags yield both tags in order; a subsequent delete
of k2 : v2 sends exactly the original single-tag list (order preserved) as
the PATCH body, but the cached list that reading tags returns is left
unchanged, still holding both tags. -/
theorem claim_C2_amended :
    tagManagerAll (tagManagerAdd true [⟨"k1", "v1"⟩] "k2" "v2").finalTags
        = [(⟨"k1", "v1"⟩ : Tag), ⟨"k2", "v2"⟩] ∧
    (tagManagerDelete true
        (tagManagerAdd true [⟨"k1", "v1"⟩] "k2" "v2").finalTags
        "k2" "v2").patchBody = [(⟨"k1", "v1"⟩ : Tag)] ∧
    tagManagerAll
        (tagManagerDelete true
          (tagManagerAdd true [⟨"k1", "v1"⟩] "k2" "v2").finalTags
          "k2" "v2").finalTags = [(⟨"k1", "v1"⟩ : Tag), ⟨"k2", "v2"⟩] := by
  decide

/-- Claim C7, counterexample: atomicity fails for `TagManager.add`.  With
cached tags holding only k1 : v1, an add of k2 : v2 whose PATCH fails
raises, yet the cached `_tags` has already been mutated to hold both tags
- client-visible state changed on a failing operation. -/
theorem claim_C7_counterexample :
    (tagManagerAdd false [⟨"k1", "v1"⟩] "k2" "v2").raised = true ∧
    (tagManagerAdd false [⟨"k1", "v1"⟩] "k2" "v2").finalTags
      ≠ [(⟨"k1", "v1"⟩ : Tag)] := by
  decide

/-- Claim C7, amended: when the PATCH issued by `TagManager.delete` fails,
the cached `_tags` is unchanged (delete never touches the cache); but when
the PATCH issued by `TagManager.add` fails, the cache has already been
mutated - it equals the old list with the new tag appended, because add
appends to the aliased cached list before issuing the request.  Both
failing calls propagate the error. -/
theorem claim_C7_amended :
    ∀ (cached : List Tag) (k v : String),
      (tagManagerDelete false cached k v).finalTags = cached ∧
      (tagManagerDelete false cached k v).raised = true ∧
      (tagManagerAdd false cached k v).finalTags = cached ++ [⟨k, v⟩] ∧
      (tagManagerAdd false cached k v).raised = true := by
  intro cached k v
  refine ⟨rfl, rfl, rfl, rfl⟩

end PySnyk
